import Mathlib

/-!
Shallow embedding of the AVR DRAM tester firmware (`src/main.cpp`) and proofs
about its March C− engine, DRAM bus driver, chip probe and LED indicator.

Machine-integer conventions: the 8-bit I/O ports are modelled as `Nat` with
explicit `% 256` where the hardware truncates; the 16-bit address counter uses
explicit `% 65536`.  Stores to the control port `PORTC`, the RAS/CAS address
strobes (with the level of the A8 line at strobe time), read samples and the
simulated DRAM cell array are recorded so that theorems can speak about the
sequence of bus cycles the firmware produces.
-/

namespace AvrDram

/-- Convert a bit index to a mask, as `util.hpp`'s `bit_mask` (`1 << n`). -/
def bit_mask (n : Nat) : Nat := 1 <<< n

/- PORTB bit masks: `[ x x DIN LED_G LED_R SEL - DOUT ]`. -/
def DIN : Nat := bit_mask 5
def LED_G : Nat := bit_mask 4
def LED_R : Nat := bit_mask 3
def MODE_SEL : Nat := bit_mask 2
def A8 : Nat := bit_mask 1
def DOUT : Nat := bit_mask 0

/- PORTC bit masks: `[ x x CAS RAS WE RE ERR - ]`. -/
def ERR : Nat := bit_mask 1
def RE : Nat := bit_mask 2
def WE : Nat := bit_mask 3
def RAS : Nat := bit_mask 4
def CAS : Nat := bit_mask 5

/-- 8-bit complement, the `~mask` of the C source applied to a `uint8_t` port. -/
def compl8 (m : Nat) : Nat := 255 ^^^ m

/- Active-low control signal composites on PORTC, as in the source. -/
def CTRL_DEFAULT : Nat := ERR ||| RE ||| WE ||| RAS ||| CAS
def CTRL_REFRESH : Nat := CTRL_DEFAULT &&& compl8 RAS
def CTRL_READ_ROW : Nat := CTRL_DEFAULT &&& compl8 RAS &&& compl8 RE
def CTRL_READ_COL : Nat := CTRL_READ_ROW &&& compl8 CAS
def CTRL_WRITE_ROW : Nat := CTRL_DEFAULT &&& compl8 RAS &&& compl8 WE
def CTRL_WRITE_COL : Nat := CTRL_WRITE_ROW &&& compl8 CAS
def CTRL_ERROR : Nat := CTRL_DEFAULT &&& compl8 ERR

/-- `enum Direction { UP, DN }`. -/
inductive Direction where
  | UP
  | DN
deriving DecidableEq, Repr

/-- `enum Read { R0 = 0, R1 = DOUT, RX }`. -/
inductive Read where
  | R0
  | R1
  | RX
deriving DecidableEq, Repr

/-- `enum Write { W0, W1, WX }`. -/
inductive Write where
  | W0
  | W1
  | WX
deriving DecidableEq, Repr

/-- `enum Bit { Bit0, Bit1, BitX }`. -/
inductive Bit where
  | Bit0
  | Bit1
  | BitX
deriving DecidableEq, Repr

/-- `enum Chip { DRAM_4164, DRAM_41256 }`. -/
inductive Chip where
  | DRAM_4164
  | DRAM_41256
deriving DecidableEq, Repr

open Direction Read Write Bit Chip

/-- Observable events of the firmware's interaction with the DRAM bus:
stores to the control port, the address byte and A8 line level latched at each
RAS and CAS edge, and the DOUT bit sampled by a read cycle. -/
inductive Ev where
  | ctrl (v : Nat)
  | rowStrobe (row : Nat) (a8 : Bool)
  | colStrobe (col : Nat) (a8 : Bool)
  | sample (b : Bool)
deriving DecidableEq, Repr

/-- Machine state: the three I/O port registers, the simulated DRAM cell array
(indexed by 9-bit effective row and column), whether the installed chip honors
the A8 address line (41256) or ignores it (4164), and the event trace. -/
structure Sys where
  portB : Nat
  portC : Nat
  portD : Nat
  honorsA8 : Bool
  dram : Nat → Nat → Bool
  trace : List Ev

/-- Append an observable event. -/
def emit (e : Ev) (s : Sys) : Sys := { s with trace := s.trace ++ [e] }

/-- `PORTC = v`: an observable store to the control port. -/
def storeC (v : Nat) (s : Sys) : Sys :=
  { s with portC := v, trace := s.trace ++ [Ev.ctrl v] }

/-- `PORTD = v`: store the multiplexed address byte (`uint8_t` truncation). -/
def storeD (v : Nat) (s : Sys) : Sys := { s with portD := v % 256 }

/-- Level of the A8 output line (PORTB bit 1). -/
def a8Level (s : Sys) : Bool := s.portB.testBit 1

/-- Level of the DIN output line (PORTB bit 5). -/
def dinLevel (s : Sys) : Bool := s.portB.testBit 5

/-- The PORTB transformation of `set_a8<BIT>`: clear, set or leave bit A8. -/
def a8fn : Bit → Nat → Nat
  | Bit0, y => y &&& compl8 A8
  | Bit1, y => y ||| A8
  | BitX, y => y

/-- `set_a8<BIT>`: set, clear or leave the upper address bit on PORTB. -/
def set_a8 (b : Bit) (s : Sys) : Sys := { s with portB := a8fn b s.portB }

/-- The PORTB transformation of `set_data<WRITE>`: clear or set bit DIN. -/
def dinfn : Write → Nat → Nat
  | W0, y => y &&& compl8 DIN
  | _, y => y ||| DIN

/-- `set_data<WRITE>`: drive DIN low for `W0`, high for `W1` or `WX`. -/
def set_data (w : Write) (s : Sys) : Sys := { s with portB := dinfn w s.portB }

/-- Effective 9-bit address bit seen by the chip: the strobed byte plus the A8
line if (and only if) the chip honors A8. -/
def effAddr (s : Sys) (lat : Bool) : Nat :=
  s.portD + (if s.honorsA8 && lat then 256 else 0)

/-- `read<ROW_A8, COL_A8>(row, col)`: perform a read cycle and sample DOUT. -/
def read (rA8 cA8 : Bit) (row col : Nat) (s0 : Sys) : Sys × Read :=
  -- Strobe row address
  let s1 := storeD row s0
  let s2 := set_a8 rA8 s1
  let rLat := a8Level s2
  let effRow := effAddr s2 rLat
  let s3 := emit (Ev.rowStrobe s2.portD rLat) (storeC CTRL_READ_ROW s2)
  -- Strobe col address
  let s4 := storeD col s3
  let s5 := set_a8 cA8 s4
  let cLat := a8Level s5
  let effCol := effAddr s5 cLat
  let s6 := emit (Ev.colStrobe s5.portD cLat) (storeC CTRL_READ_COL s5)
  -- Sample data (`Read(PINB & DOUT)`)
  let b := s6.dram effRow effCol
  let s7 := emit (Ev.sample b) s6
  -- Reset control signals
  let s8 := storeC CTRL_DEFAULT s7
  (s8, if b then R1 else R0)

/-- `write<ROW_A8, COL_A8>(row, col)`: perform an (early-) write cycle; the
cell receives the level of the DIN line, which is stable during the cycle. -/
def write (rA8 cA8 : Bit) (row col : Nat) (s0 : Sys) : Sys :=
  -- Strobe row address
  let s1 := storeD row s0
  let s2 := set_a8 rA8 s1
  let rLat := a8Level s2
  let effRow := effAddr s2 rLat
  let s3 := emit (Ev.rowStrobe s2.portD rLat) (storeC CTRL_WRITE_ROW s2)
  -- Strobe col address
  let s4 := storeD col s3
  let s5 := set_a8 cA8 s4
  let cLat := a8Level s5
  let effCol := effAddr s5 cLat
  let din := dinLevel s5
  let s6 := emit (Ev.colStrobe s5.portD cLat) (storeC CTRL_WRITE_COL s5)
  let s7 := { s6 with dram := fun r c => if r = effRow ∧ c = effCol then din else s6.dram r c }
  -- Reset control signals
  storeC CTRL_DEFAULT s7

/-- `pass()`: set the green LED only if the red LED is clear. -/
def pass (s : Sys) : Sys :=
  if s.portB &&& LED_R = 0 then { s with portB := s.portB ||| LED_G } else s

/-- `fail()`: pulse the error pin (a control-port store that is not undone),
set the red LED and clear the green LED. -/
def fail (s : Sys) : Sys :=
  let s1 := storeC CTRL_ERROR s
  let s2 := { s1 with portB := s1.portB ||| LED_R }
  { s2 with portB := s2.portB &&& compl8 LED_G }

/-- One RAS-only wake-up cycle of `init_dram`. -/
def rasCycle (s : Sys) : Sys := storeC CTRL_DEFAULT (storeC CTRL_REFRESH s)

/-- `init_dram`: the 8 RAS-cycle wake-up (the 500 µs timer delay has no
observable port effect and is not modelled). -/
def init_dram (s : Sys) : Sys :=
  rasCycle (rasCycle (rasCycle (rasCycle (rasCycle (rasCycle (rasCycle (rasCycle s)))))))

/-- `is_41256()`: probe for a 256K chip by writing at both levels of A8. -/
def is_41256 (s : Sys) : Sys × Bool :=
  -- Write 1 to lower bank
  let s1 := set_data W1 s
  let s2 := write Bit0 Bit0 0 0 s1
  -- Write 0 to upper bank
  let s3 := set_data W0 s2
  let s4 := write Bit1 Bit1 0 0 s3
  -- If lower bank still reads 1, it's a 256
  let p := read Bit0 Bit0 0 0 s4
  (p.1, decide (p.2 = R1))

/-- Loop body of `march_once`: split the 16-bit counter into column (high
byte) and row (low byte), optionally read-verify (reporting a mismatch via
`fail`), then optionally write. -/
def marchBody (rd : Read) (wr : Write) (rA8 cA8 : Bit) (address : Nat) (s : Sys) : Sys :=
  let col := address / 256 % 256
  let row := address % 256
  let s1 := if rd ≠ RX then
      let p := read rA8 cA8 row col s
      if p.2 ≠ rd then fail p.1 else p.1
    else s
  if wr ≠ WX then write rA8 cA8 row col s1 else s1

/-- The pre-decrement of the 16-bit counter (`--address` for `DN`). -/
def decWrap (dir : Direction) (a : Nat) : Nat :=
  if dir = DN then (a + 65535) % 65536 else a

/-- The post-increment of the 16-bit counter (`++address` for `UP`). -/
def incWrap (dir : Direction) (a : Nat) : Nat :=
  if dir = UP then (a + 1) % 65536 else a

/-- The do-while address loop of `march_once`: pre-decrement for `DN`,
post-increment for `UP`, both with 16-bit wraparound, terminating when the
counter returns to 0.  `fuel` bounds the iteration count so the definition is
total; the termination theorems show `2^16` fuel is exact. -/
def doWhileLoop {σ : Type} (dir : Direction) (body : Nat → σ → σ) : Nat → Nat → σ → σ
  | 0, _, s => s
  | fuel+1, a, s =>
    let a1 := decWrap dir a
    let s1 := body a1 s
    let a2 := incWrap dir a1
    if a2 = 0 then s1 else doWhileLoop dir body fuel a2 s1

/-- The sequence of counter values at which the do-while loop executes its
body, starting from counter value `a` with the given fuel. -/
def visited (dir : Direction) : Nat → Nat → List Nat
  | 0, _ => []
  | fuel+1, a =>
    let a1 := decWrap dir a
    let a2 := incWrap dir a1
    a1 :: (if a2 = 0 then [] else visited dir fuel a2)

/-- `march_once<DIR, READ, WRITE, ROW_A8, COL_A8>` with explicit fuel: when
both A8 parameters are equal and definite, set A8 once and run the loop
without touching it; otherwise run the loop setting A8 at each strobe. -/
def marchOnceF (f : Nat) (dir : Direction) (rd : Read) (wr : Write) (rA8 cA8 : Bit)
    (s : Sys) : Sys :=
  if rA8 = cA8 ∧ rA8 ≠ BitX then
    -- Optimization for non-changing A8 value
    doWhileLoop dir (marchBody rd wr BitX BitX) f 0 (set_a8 rA8 s)
  else
    doWhileLoop dir (marchBody rd wr rA8 cA8) f 0 s

/-- `march_once` with the exact fuel needed for the full 2^16 sweep. -/
def march_once (dir : Direction) (rd : Read) (wr : Write) (rA8 cA8 : Bit) (s : Sys) : Sys :=
  marchOnceF 65536 dir rd wr rA8 cA8 s

/-- `march_step<CHIP, DIR, READ, WRITE>`: set DIN once, then one `march_once`
sweep for a 4164, or four sweeps covering both A8 bits for a 41256 (the
unspecified-parameter overloads pass `RX` / `WX`). -/
def march_step (chip : Chip) (dir : Direction) (rd : Read) (wr : Write) (s : Sys) : Sys :=
  -- Data is same for all writes, so set Din once outside loop
  let s0 := set_data wr s
  match chip with
  | DRAM_41256 =>
    match dir with
    | UP =>
      -- Increment A8 bits
      march_once UP rd wr Bit1 Bit1
        (march_once UP rd wr Bit0 Bit1
          (march_once UP rd wr Bit1 Bit0
            (march_once UP rd wr Bit0 Bit0 s0)))
    | DN =>
      -- Decrement A8 bits
      march_once DN rd wr Bit0 Bit0
        (march_once DN rd wr Bit1 Bit0
          (march_once DN rd wr Bit0 Bit1
            (march_once DN rd wr Bit1 Bit1 s0)))
  | DRAM_4164 => march_once dir rd wr BitX BitX s0

/-- One iteration of the infinite `march<CHIP>` loop: the six March C− steps
followed by `pass()`. -/
def march_iter (chip : Chip) (s : Sys) : Sys :=
  pass
    (march_step chip DN R0 WX
      (march_step chip DN R1 W0
        (march_step chip DN R0 W1
          (march_step chip UP R1 W0
            (march_step chip UP R0 W1
              (march_step chip UP RX W0 s))))))

/-- `n` iterations of the infinite `march<CHIP>` loop. -/
def marchRun (chip : Chip) : Nat → Sys → Sys
  | 0, s => s
  | n+1, s => marchRun chip n (march_iter chip s)

/-- The chip-type dispatch of `main()`: run the 41256 code path exactly when
the probe returns true. -/
def chipOf (s : Sys) : Chip :=
  if (is_41256 s).2 then DRAM_41256 else DRAM_4164

/-- Control-port stores recorded in a trace. -/
def ctrlVals (t : List Ev) : List Nat :=
  t.filterMap fun e => match e with | Ev.ctrl v => some v | _ => none

/-- Row bytes latched at RAS edges, in order. -/
def rowStrobes (t : List Ev) : List Nat :=
  t.filterMap fun e => match e with | Ev.rowStrobe r _ => some r | _ => none

/-- Column bytes latched at CAS edges, in order. -/
def colStrobes (t : List Ev) : List Nat :=
  t.filterMap fun e => match e with | Ev.colStrobe c _ => some c | _ => none

/-- Successive xor-differences of a run of port stores against the previous
port value. -/
def deltas (prev : Nat) : List Nat → List Nat
  | [] => []
  | v :: t => (prev ^^^ v) :: deltas v t

/-- Number of port lines (bits 0..7) whose level a store changes. -/
def bitsChanged (d : Nat) : Nat :=
  ((List.range 8).filter fun i => d.testBit i).length

/-- Number of DRAM bus cycles (read plus write) one march iteration performs. -/
def cyclesPerIter (rd : Read) (wr : Write) : Nat :=
  (if rd = RX then 0 else 1) + (if wr = WX then 0 else 1)

/-- The six March C− steps in program order, `(direction, read, write)`. -/
def marchCSpec : List (Direction × Read × Write) :=
  [(UP, RX, W0), (UP, R0, W1), (UP, R1, W0), (DN, R0, W1), (DN, R1, W0), (DN, R0, WX)]

/-- The four `(row A8, col A8)` sweeps of a 41256 march step, in program
order for each direction. -/
def quadOrder : Direction → List (Bit × Bit)
  | UP => [(Bit0, Bit0), (Bit1, Bit0), (Bit0, Bit1), (Bit1, Bit1)]
  | DN => [(Bit1, Bit1), (Bit0, Bit1), (Bit1, Bit0), (Bit0, Bit0)]

/-- Indicator operations: the two entry points of the LED state machine. -/
inductive IndOp where
  | opPass
  | opFail
deriving DecidableEq, Repr

/-- Apply one indicator operation. -/
def applyInd : IndOp → Sys → Sys
  | IndOp.opPass => pass
  | IndOp.opFail => fail

/-- Run a sequence of `pass()` / `fail()` invocations. -/
def runInd (ops : List IndOp) (s : Sys) : Sys :=
  ops.foldl (fun t o => applyInd o t) s

/-- A machine state as `config()` leaves it: pull-up on the mode-select pin,
control port idle-high, a blank (all-zeros) fault-free 64K chip. -/
def sys0 : Sys :=
  { portB := MODE_SEL, portC := CTRL_DEFAULT, portD := 0,
    honorsA8 := false, dram := fun _ _ => false, trace := [] }

/-- Like `sys0` but the simulated chip reads 1 in every cell (every cell of a
blank chip is faulty, so the first verify pass reports a mismatch). -/
def sysStuck1 : Sys :=
  { portB := MODE_SEL, portC := CTRL_DEFAULT, portD := 0,
    honorsA8 := false, dram := fun _ _ => true, trace := [] }

/- ===== Bit-level toolkit ===== -/

theorem testBit_255 (k : Nat) : (255 : Nat).testBit k = decide (k < 8) := by
  have h : (255 : Nat) = 2 ^ 8 - 1 := by norm_num
  rw [h, Nat.testBit_two_pow_sub_one]

theorem and_or_self (y : Nat) (i : Nat) : (y ||| 2 ^ i) &&& 2 ^ i = 2 ^ i := by
  apply Nat.eq_of_testBit_eq
  intro k
  simp only [Nat.testBit_and, Nat.testBit_or, Nat.testBit_two_pow]
  by_cases h : i = k <;> simp [h]

theorem and_or_other {i j : Nat} (h : i ≠ j) (y : Nat) :
    (y ||| 2 ^ j) &&& 2 ^ i = y &&& 2 ^ i := by
  apply Nat.eq_of_testBit_eq
  intro k
  simp only [Nat.testBit_and, Nat.testBit_or, Nat.testBit_two_pow]
  by_cases hik : i = k
  · subst hik
    have : ¬ (j = i) := fun hc => h hc.symm
    simp [this]
  · simp [hik]

theorem and_clear_self {j : Nat} (hj : j < 8) (y : Nat) :
    (y &&& compl8 (2 ^ j)) &&& 2 ^ j = 0 := by
  apply Nat.eq_of_testBit_eq
  intro k
  simp only [Nat.testBit_and, Nat.testBit_two_pow, compl8, Nat.testBit_xor,
    testBit_255, Nat.zero_testBit]
  by_cases hjk : j = k
  · subst hjk
    simp [hj]
  · simp [hjk]

theorem and_clear_other {i j : Nat} (h : i ≠ j) (hi : i < 8) (y : Nat) :
    (y &&& compl8 (2 ^ j)) &&& 2 ^ i = y &&& 2 ^ i := by
  apply Nat.eq_of_testBit_eq
  intro k
  simp only [Nat.testBit_and, Nat.testBit_two_pow, compl8, Nat.testBit_xor, testBit_255]
  by_cases hik : i = k
  · subst hik
    have hj : ¬ (j = i) := fun hc => h hc.symm
    simp [hj, hi]
  · simp [hik]

theorem or_or_self (y m : Nat) : (y ||| m) ||| m = y ||| m := by
  rw [Nat.or_assoc, Nat.or_self]

theorem and_and_self (y m : Nat) : (y &&& m) &&& m = y &&& m := by
  rw [Nat.and_assoc, Nat.and_self]

theorem testBit_or_self (y : Nat) (i : Nat) : (y ||| 2 ^ i).testBit i = true := by
  simp [Nat.testBit_or, Nat.testBit_two_pow]

theorem testBit_clear_self {j : Nat} (hj : j < 8) (y : Nat) :
    (y &&& compl8 (2 ^ j)).testBit j = false := by
  simp only [Nat.testBit_and, compl8, Nat.testBit_xor, testBit_255,
    Nat.testBit_two_pow]
  simp [hj]

theorem or_eq_self {y : Nat} {i : Nat} (h : y.testBit i = true) : y ||| 2 ^ i = y := by
  apply Nat.eq_of_testBit_eq
  intro k
  simp only [Nat.testBit_or, Nat.testBit_two_pow]
  by_cases hik : i = k
  · subst hik
    simp [h]
  · simp [hik]

theorem and_compl8_eq_self {y : Nat} (hy : y < 256) {j : Nat} (hj : j < 8)
    (h : y.testBit j = false) : y &&& compl8 (2 ^ j) = y := by
  apply Nat.eq_of_testBit_eq
  intro k
  simp only [Nat.testBit_and, compl8, Nat.testBit_xor, testBit_255, Nat.testBit_two_pow]
  by_cases hk8 : k < 8
  · by_cases hjk : j = k
    · subst hjk
      simp [h]
    · simp [hjk, hk8]
  · have hjk : ¬ (j = k) := by omega
    have hk : y.testBit k = false := by
      apply Nat.testBit_lt_two_pow
      calc y < 256 := hy
        _ = 2 ^ 8 := by norm_num
        _ ≤ 2 ^ k := Nat.pow_le_pow_right (by norm_num) (by omega)
    simp [hjk, hk8, hk]

/- ===== Loop structure ===== -/

theorem doWhile_eq_foldl {σ : Type} (dir : Direction) (body : Nat → σ → σ) :
    ∀ (n a : Nat) (s : σ),
    doWhileLoop dir body n a s = (visited dir n a).foldl (fun t x => body x t) s := by
  intro n
  induction n with
  | zero => intro a s; rfl
  | succ m ih =>
    intro a s
    simp only [doWhileLoop, visited]
    by_cases h : incWrap dir (decWrap dir a) = 0
    · simp [h]
    · simp [h, ih]

theorem visited_up : ∀ (n f a : Nat), 0 < n → a + n = 65536 → n ≤ f →
    visited UP f a = List.range' a n := by
  intro n
  induction n with
  | zero => intro f a hpos _ _; omega
  | succ m ih =>
    intro f a _ hsum hf
    obtain ⟨f', rfl⟩ : ∃ f', f = f' + 1 := ⟨f - 1, by omega⟩
    have hdec : decWrap UP a = a := by simp [decWrap]
    by_cases hm : m = 0
    · subst hm
      have ha : a = 65535 := by omega
      subst ha
      simp [visited, hdec, incWrap]
    · have ha1 : a + 1 < 65536 := by omega
      have hinc : incWrap UP a = a + 1 := by
        simp [incWrap, Nat.mod_eq_of_lt ha1]
      have hne : ¬ (a + 1 = 0) := by omega
      simp only [visited, hdec, hinc]
      rw [if_neg hne, ih f' (a + 1) (by omega) (by omega) (by omega)]
      rw [List.range'_succ]

theorem visited_dn : ∀ (n f a : Nat), 0 < n → n ≤ 65536 → a = n % 65536 → n ≤ f →
    visited DN f a = (List.range n).reverse := by
  intro n
  induction n with
  | zero => intro f a hpos _ _ _; omega
  | succ m ih =>
    intro f a _ hle ha hf
    obtain ⟨f', rfl⟩ : ∃ f', f = f' + 1 := ⟨f - 1, by omega⟩
    have hdec : decWrap DN a = m := by
      simp only [decWrap]
      simp only [reduceIte]
      omega
    have hinc : incWrap DN m = m := by simp [incWrap]
    by_cases hm : m = 0
    · subst hm
      simp only [visited, hdec, hinc, reduceIte]
      rfl
    · simp only [visited, hdec, hinc]
      rw [if_neg hm, ih f' m (by omega) (by omega) (by omega) (by omega)]
      rw [List.range_succ]
      simp

theorem visited_eq (dir : Direction) (f : Nat) (hf : 65536 ≤ f) :
    visited dir f 0 =
      (if dir = UP then List.range 65536 else (List.range 65536).reverse) := by
  cases dir with
  | UP =>
    rw [visited_up 65536 f 0 (by omega) (by omega) hf]
    simp [(List.range_eq_range' 65536).symm]
  | DN =>
    rw [visited_dn 65536 f 0 (by omega) (by omega) (by omega) hf]
    simp

/- ===== Claim C1 ===== -/

/-- Claim C1: for every `Direction`, `ReadSpec` and `WriteSpec`
parameterization, `march_once` terminates and performs exactly `2^16` loop
iterations (any fuel of at least `2^16` yields the run the exact-fuel
`march_once` performs), its loop is the fold of its body over the visited
address list, and that list visits every 16-bit address exactly once —
ascending `0..65535` for `UP`, descending `65535..0` for `DN` — with no
address repeated or skipped. -/
theorem claim_C1 (dir : Direction) (rd : Read) (wr : Write) (rA8 cA8 : Bit)
    (f : Nat) (s : Sys) (hf : 65536 ≤ f) :
    marchOnceF f dir rd wr rA8 cA8 s = march_once dir rd wr rA8 cA8 s
    ∧ (∀ (σ : Type) (body : Nat → σ → σ) (x : σ),
        doWhileLoop dir body f 0 x = (visited dir f 0).foldl (fun t y => body y t) x)
    ∧ visited dir f 0 =
        (if dir = UP then List.range 65536 else (List.range 65536).reverse)
    ∧ (visited dir f 0).length = 65536
    ∧ (visited dir f 0).Nodup
    ∧ (∀ a, a ∈ visited dir f 0 ↔ a < 65536) := by
  have hv : visited dir f 0 =
      (if dir = UP then List.range 65536 else (List.range 65536).reverse) :=
    visited_eq dir f hf
  have hv65 : visited dir 65536 0 =
      (if dir = UP then List.range 65536 else (List.range 65536).reverse) :=
    visited_eq dir 65536 (by omega)
  have hsame : ∀ (σ : Type) (body : Nat → σ → σ) (x : σ),
      doWhileLoop dir body f 0 x = doWhileLoop dir body 65536 0 x := by
    intro σ body x
    rw [doWhile_eq_foldl, doWhile_eq_foldl, hv, hv65]
  refine ⟨?_, ?_, hv, ?_, ?_, ?_⟩
  · simp only [march_once, marchOnceF]
    by_cases h : rA8 = cA8 ∧ rA8 ≠ BitX
    · rw [if_pos h, if_pos h, hsame]
    · rw [if_neg h, if_neg h, hsame]
  · intro σ body x
    rw [doWhile_eq_foldl]
  · cases dir <;> simp [hv]
  · cases dir <;> simp [hv, List.nodup_range]
  · intro a
    cases dir <;> simp [hv, List.mem_range]

/-- Witness for C1 at a concrete parameterization. -/
theorem claim_C1_witness : (visited UP 65536 0).length = 65536 :=
  (claim_C1 UP R0 W1 BitX BitX 65536 sys0 (by omega)).2.2.2.1

/- ===== Trace projections of the cycle functions ===== -/

theorem rowStrobes_read (rA8 cA8 : Bit) (r c : Nat) (s : Sys) :
    rowStrobes ((read rA8 cA8 r c s).1.trace) = rowStrobes s.trace ++ [r % 256] := by
  simp [read, emit, storeC, storeD, set_a8, rowStrobes, List.filterMap_append]

theorem rowStrobes_write (rA8 cA8 : Bit) (r c : Nat) (s : Sys) :
    rowStrobes ((write rA8 cA8 r c s).trace) = rowStrobes s.trace ++ [r % 256] := by
  simp [write, emit, storeC, storeD, set_a8, rowStrobes, List.filterMap_append]

theorem rowStrobes_fail (s : Sys) :
    rowStrobes ((fail s).trace) = rowStrobes s.trace := by
  simp [fail, storeC, rowStrobes, List.filterMap_append]

theorem colStrobes_read (rA8 cA8 : Bit) (r c : Nat) (s : Sys) :
    colStrobes ((read rA8 cA8 r c s).1.trace) = colStrobes s.trace ++ [c % 256] := by
  simp [read, emit, storeC, storeD, set_a8, colStrobes, List.filterMap_append]

theorem colStrobes_write (rA8 cA8 : Bit) (r c : Nat) (s : Sys) :
    colStrobes ((write rA8 cA8 r c s).trace) = colStrobes s.trace ++ [c % 256] := by
  simp [write, emit, storeC, storeD, set_a8, colStrobes, List.filterMap_append]

theorem colStrobes_fail (s : Sys) :
    colStrobes ((fail s).trace) = colStrobes s.trace := by
  simp [fail, storeC, colStrobes, List.filterMap_append]

theorem ctrlVals_read (rA8 cA8 : Bit) (r c : Nat) (s : Sys) :
    ctrlVals ((read rA8 cA8 r c s).1.trace) =
      ctrlVals s.trace ++ [CTRL_READ_ROW, CTRL_READ_COL, CTRL_DEFAULT] := by
  simp [read, emit, storeC, storeD, set_a8, ctrlVals, List.filterMap_append]

theorem ctrlVals_write (rA8 cA8 : Bit) (r c : Nat) (s : Sys) :
    ctrlVals ((write rA8 cA8 r c s).trace) =
      ctrlVals s.trace ++ [CTRL_WRITE_ROW, CTRL_WRITE_COL, CTRL_DEFAULT] := by
  simp [write, emit, storeC, storeD, set_a8, ctrlVals, List.filterMap_append]

theorem ctrlVals_fail (s : Sys) :
    ctrlVals ((fail s).trace) = ctrlVals s.trace ++ [CTRL_ERROR] := by
  simp [fail, storeC, ctrlVals, List.filterMap_append]

theorem rowStrobes_body (rd : Read) (wr : Write) (rA8 cA8 : Bit) (a : Nat) (s : Sys) :
    rowStrobes ((marchBody rd wr rA8 cA8 a s).trace)
      = rowStrobes s.trace ++ List.replicate (cyclesPerIter rd wr) (a % 256) := by
  have hmm : a % 256 % 256 = a % 256 := Nat.mod_mod_of_dvd a (dvd_refl 256)
  simp only [marchBody]
  by_cases hrd : rd = RX
  · rw [if_neg (not_not_intro hrd)]
    by_cases hwr : wr = WX
    · rw [if_neg (not_not_intro hwr)]
      simp [cyclesPerIter, hrd, hwr]
    · rw [if_pos hwr, rowStrobes_write]
      simp [cyclesPerIter, hrd, hwr, hmm]
  · rw [if_pos hrd]
    by_cases hm : (read rA8 cA8 (a % 256) (a / 256 % 256) s).2 ≠ rd
    · rw [if_pos hm]
      by_cases hwr : wr = WX
      · rw [if_neg (not_not_intro hwr)]
        rw [rowStrobes_fail, rowStrobes_read]
        simp [cyclesPerIter, hrd, hwr, hmm]
      · rw [if_pos hwr, rowStrobes_write, rowStrobes_fail, rowStrobes_read]
        simp [cyclesPerIter, hrd, hwr, hmm, List.replicate_succ]
    · rw [if_neg hm]
      by_cases hwr : wr = WX
      · rw [if_neg (not_not_intro hwr)]
        rw [rowStrobes_read]
        simp [cyclesPerIter, hrd, hwr, hmm]
      · rw [if_pos hwr, rowStrobes_write, rowStrobes_read]
        simp [cyclesPerIter, hrd, hwr, hmm, List.replicate_succ]

theorem colStrobes_body (rd : Read) (wr : Write) (rA8 cA8 : Bit) (a : Nat) (s : Sys) :
    colStrobes ((marchBody rd wr rA8 cA8 a s).trace)
      = colStrobes s.trace ++ List.replicate (cyclesPerIter rd wr) (a / 256 % 256) := by
  have hmm : a / 256 % 256 % 256 = a / 256 % 256 := Nat.mod_mod_of_dvd _ (dvd_refl 256)
  simp only [marchBody]
  by_cases hrd : rd = RX
  · rw [if_neg (not_not_intro hrd)]
    by_cases hwr : wr = WX
    · rw [if_neg (not_not_intro hwr)]
      simp [cyclesPerIter, hrd, hwr]
    · rw [if_pos hwr, colStrobes_write]
      simp [cyclesPerIter, hrd, hwr, hmm]
  · rw [if_pos hrd]
    by_cases hm : (read rA8 cA8 (a % 256) (a / 256 % 256) s).2 ≠ rd
    · rw [if_pos hm]
      by_cases hwr : wr = WX
      · rw [if_neg (not_not_intro hwr)]
        rw [colStrobes_fail, colStrobes_read]
        simp [cyclesPerIter, hrd, hwr, hmm]
      · rw [if_pos hwr, colStrobes_write, colStrobes_fail, colStrobes_read]
        simp [cyclesPerIter, hrd, hwr, hmm, List.replicate_succ]
    · rw [if_neg hm]
      by_cases hwr : wr = WX
      · rw [if_neg (not_not_intro hwr)]
        rw [colStrobes_read]
        simp [cyclesPerIter, hrd, hwr, hmm]
      · rw [if_pos hwr, colStrobes_write, colStrobes_read]
        simp [cyclesPerIter, hrd, hwr, hmm, List.replicate_succ]

/- ===== Claim C2 ===== -/

/-- Any 256-iteration window of a pass contains an iteration whose address
has any required low byte. -/
theorem window_row (dir : Direction) (f i r : Nat) (hf : 65536 ≤ f)
    (hi : i + 256 ≤ 65536) (hr : r < 256) :
    ∃ k, k < 256 ∧ ∃ b, (visited dir f 0)[i + k]? = some b ∧ b % 256 = r := by
  rw [visited_eq dir f hf]
  cases dir with
  | UP =>
    refine ⟨(r + 256 - i % 256) % 256, Nat.mod_lt _ (by omega), i + (r + 256 - i % 256) % 256, ?_, ?_⟩
    · simp only [reduceIte]
      exact List.getElem?_range (by omega)
    · omega
  | DN =>
    refine ⟨(65535 - i - r) % 256, Nat.mod_lt _ (by omega), 65535 - (i + (65535 - i - r) % 256), ?_, ?_⟩
    · have hlen : i + (65535 - i - r) % 256 < (List.range 65536).length := by
        simp only [List.length_range]
        omega
      rw [if_neg (by decide)]
      rw [List.getElem?_reverse hlen]
      simp only [List.length_range]
      have : 65536 - 1 - (i + (65535 - i - r) % 256) = 65535 - (i + (65535 - i - r) % 256) := by
        omega
      rw [this]
      exact List.getElem?_range (by omega)
    · omega

/-- Claim C2: in every iteration of `march_once`, every RAS strobe of the
iteration latches row byte `address % 256` and every CAS strobe latches
column byte `address / 256 % 256`; every iteration of a pass that reads or
writes performs at least one such cycle, and any 256 consecutive iterations
of a pass contain, for each row value `r < 256`, an iteration whose address
has low byte `r` — so every row value appears in the RAS strobes of any
256-iteration window (refresh coverage). -/
theorem claim_C2 (dir : Direction) (rd : Read) (wr : Write) (rA8 cA8 : Bit)
    (a : Nat) (s : Sys) (f i r : Nat)
    (hpass : rd ≠ RX ∨ wr ≠ WX) (hf : 65536 ≤ f) (hi : i + 256 ≤ 65536) (hr : r < 256) :
    rowStrobes ((marchBody rd wr rA8 cA8 a s).trace)
      = rowStrobes s.trace ++ List.replicate (cyclesPerIter rd wr) (a % 256)
    ∧ colStrobes ((marchBody rd wr rA8 cA8 a s).trace)
      = colStrobes s.trace ++ List.replicate (cyclesPerIter rd wr) (a / 256 % 256)
    ∧ 1 ≤ cyclesPerIter rd wr
    ∧ ∃ k, k < 256 ∧ ∃ b, (visited dir f 0)[i + k]? = some b ∧ b % 256 = r := by
  refine ⟨rowStrobes_body rd wr rA8 cA8 a s, colStrobes_body rd wr rA8 cA8 a s, ?_,
    window_row dir f i r hf hi hr⟩
  rcases hpass with h | h <;> simp [cyclesPerIter, h]

/-- Witness for C2 at a concrete parameterization. -/
theorem claim_C2_witness :
    rowStrobes ((marchBody R0 W1 BitX BitX 0 sys0).trace)
      = rowStrobes sys0.trace ++ List.replicate (cyclesPerIter R0 W1) (0 % 256) :=
  (claim_C2 UP R0 W1 BitX BitX 0 sys0 65536 0 0 (Or.inl (by decide)) (by omega)
    (by omega) (by omega)).1

/- ===== Indicator state machine ===== -/

theorem LED_R_pow : LED_R = 2 ^ 3 := by decide

theorem LED_G_pow : LED_G = 2 ^ 4 := by decide

theorem pass_portB_red (s : Sys) : (pass s).portB &&& LED_R = s.portB &&& LED_R := by
  unfold pass
  by_cases h : s.portB &&& LED_R = 0
  · rw [if_pos h]
    show (s.portB ||| LED_G) &&& LED_R = s.portB &&& LED_R
    rw [LED_G_pow, LED_R_pow, and_or_other (by omega)]
  · rw [if_neg h]

theorem pass_green_iff (s : Sys) :
    ((pass s).portB &&& LED_G ≠ 0 ↔ (s.portB &&& LED_R = 0 ∨ s.portB &&& LED_G ≠ 0)) := by
  unfold pass
  by_cases h : s.portB &&& LED_R = 0
  · rw [if_pos h]
    constructor
    · intro _
      exact Or.inl h
    · intro _
      show (s.portB ||| LED_G) &&& LED_G ≠ 0
      rw [LED_G_pow, and_or_self]
      decide
  · rw [if_neg h]
    simp [h]

theorem pass_of_red {s : Sys} (h : s.portB &&& LED_R ≠ 0) : pass s = s := by
  unfold pass
  rw [if_neg h]

theorem fail_red (s : Sys) : (fail s).portB &&& LED_R ≠ 0 := by
  show ((s.portB ||| LED_R) &&& compl8 LED_G) &&& LED_R ≠ 0
  rw [LED_G_pow, LED_R_pow, and_clear_other (by omega) (by omega), and_or_self]
  decide

theorem fail_green (s : Sys) : (fail s).portB &&& LED_G = 0 := by
  show ((s.portB ||| LED_R) &&& compl8 LED_G) &&& LED_G = 0
  rw [LED_G_pow, and_clear_self (by omega)]

theorem runInd_red_mono : ∀ (ops : List IndOp) (s : Sys),
    s.portB &&& LED_R ≠ 0 → (runInd ops s).portB &&& LED_R ≠ 0 := by
  intro ops
  induction ops with
  | nil => intro s h; exact h
  | cons o t ih =>
    intro s h
    show (runInd t (applyInd o s)).portB &&& LED_R ≠ 0
    apply ih
    cases o with
    | opPass => rw [applyInd, pass_portB_red]; exact h
    | opFail => exact fail_red s

theorem runInd_inv : ∀ (ops : List IndOp) (s : Sys),
    (s.portB &&& LED_R ≠ 0 → s.portB &&& LED_G = 0) →
    ((runInd ops s).portB &&& LED_R ≠ 0 → (runInd ops s).portB &&& LED_G = 0) := by
  intro ops
  induction ops with
  | nil => intro s h; exact h
  | cons o t ih =>
    intro s h
    show (runInd t (applyInd o s)).portB &&& LED_R ≠ 0 → _
    apply ih
    cases o with
    | opPass =>
      by_cases hr : s.portB &&& LED_R ≠ 0
      · rw [applyInd, pass_of_red hr]
        exact h
      · rw [applyInd]
        intro hc
        rw [pass_portB_red] at hc
        exact absurd hc hr
    | opFail =>
      intro _
      exact fail_green s

/- ===== Claim C3 ===== -/

theorem marchRun_succ (chip : Chip) : ∀ (n : Nat) (s : Sys),
    marchRun chip (n + 1) s = march_iter chip (marchRun chip n s) := by
  intro n
  induction n with
  | zero => intro s; rfl
  | succ m ih =>
    intro s
    show marchRun chip (m + 1) (march_iter chip s) = _
    rw [ih (march_iter chip s)]
    rfl

/-- Claim C3: one iteration of the endless test loop runs exactly the six
March C− steps `(UP,NoRead,W0), (UP,R0,W1), (UP,R1,W0), (DN,R0,W1),
(DN,R1,W0), (DN,R0,NoWrite)` in program order and then invokes `pass()`;
the loop repeats this body forever (each successive run is one more
`march_iter`); and `pass()` latches the green LED exactly when the red LED is
clear (or green was already lit), never touching red. -/
theorem claim_C3 (chip : Chip) (s : Sys) (n : Nat) :
    march_iter chip s
      = pass (marchCSpec.foldl (fun t p => march_step chip p.1 p.2.1 p.2.2 t) s)
    ∧ marchRun chip (n + 1) s = march_iter chip (marchRun chip n s)
    ∧ ((pass s).portB &&& LED_G ≠ 0 ↔ (s.portB &&& LED_R = 0 ∨ s.portB &&& LED_G ≠ 0))
    ∧ (pass s).portB &&& LED_R = s.portB &&& LED_R :=
  ⟨rfl, marchRun_succ chip n s, pass_green_iff s, pass_portB_red s⟩

/-- Witness for C3: from the fresh reset state, `pass()` lights green. -/
theorem claim_C3_witness : (pass sys0).portB &&& LED_G ≠ 0 :=
  (claim_C3 DRAM_4164 sys0 0).2.2.1.mpr (Or.inl (by decide))

/- ===== Claim C4 ===== -/

/-- Claim C4: the indicator latch rule holds under every sequence of
`pass()` / `fail()` invocations — `fail` sets red and clears green, `pass`
preserves red and sets green only when red is clear, red is sticky across any
sequence, and the "red implies green clear" invariant is preserved by any
sequence. -/
theorem claim_C4 (ops : List IndOp) (s : Sys) :
    (fail s).portB &&& LED_R ≠ 0
    ∧ (fail s).portB &&& LED_G = 0
    ∧ (pass s).portB &&& LED_R = s.portB &&& LED_R
    ∧ ((pass s).portB &&& LED_G ≠ 0 ↔ (s.portB &&& LED_R = 0 ∨ s.portB &&& LED_G ≠ 0))
    ∧ (s.portB &&& LED_R ≠ 0 → (runInd ops s).portB &&& LED_R ≠ 0)
    ∧ ((s.portB &&& LED_R ≠ 0 → s.portB &&& LED_G = 0) →
        (runInd ops s).portB &&& LED_R ≠ 0 → (runInd ops s).portB &&& LED_G = 0) :=
  ⟨fail_red s, fail_green s, pass_portB_red s, pass_green_iff s,
    runInd_red_mono ops s, runInd_inv ops s⟩

/-- Witness for C4: after a fail then a pass from reset, red is lit and green
is dark. -/
theorem claim_C4_witness :
    (runInd [IndOp.opPass] (fail sys0)).portB &&& LED_R ≠ 0
    ∧ (runInd [IndOp.opPass] (fail sys0)).portB &&& LED_G = 0 := by
  have h := claim_C4 [IndOp.opPass] (fail sys0)
  exact ⟨h.2.2.2.2.1 (by decide), h.2.2.2.2.2 (by decide) (h.2.2.2.2.1 (by decide))⟩

/- ===== Claim C5 ===== -/

/-- Counterexample to C5 as stated: in a read cycle from the idle control
state, not every control-port store changes at most one control line — the
row strobe lowers RAS and RE in one store, and the final store raises RAS,
RE and CAS at once. -/
theorem claim_C5_counterexample :
    ¬ (∀ d ∈ deltas sys0.portC (ctrlVals ((read BitX BitX 0 0 sys0).1.trace)),
        bitsChanged d ≤ 1) := by
  decide

/-- Claim C5 (amended): each successive control-port store of a read or write
cycle differs from the previous control-port value by exactly the intended
transition for that edge — the row strobe asserts RAS together with the
cycle's enable line (RE for read, WE for write) in one store, the column
strobe then changes only CAS, and the final store de-asserts all asserted
lines in a single store; every store changes the port value. -/
theorem claim_C5_amended (rA8 cA8 : Bit) (row col : Nat) (s : Sys) :
    ctrlVals ((read rA8 cA8 row col s).1.trace)
      = ctrlVals s.trace ++ [CTRL_READ_ROW, CTRL_READ_COL, CTRL_DEFAULT]
    ∧ ctrlVals ((write rA8 cA8 row col s).trace)
      = ctrlVals s.trace ++ [CTRL_WRITE_ROW, CTRL_WRITE_COL, CTRL_DEFAULT]
    ∧ deltas CTRL_DEFAULT [CTRL_READ_ROW, CTRL_READ_COL, CTRL_DEFAULT]
      = [RAS ||| RE, CAS, RAS ||| RE ||| CAS]
    ∧ deltas CTRL_DEFAULT [CTRL_WRITE_ROW, CTRL_WRITE_COL, CTRL_DEFAULT]
      = [RAS ||| WE, CAS, RAS ||| WE ||| CAS]
    ∧ (∀ d ∈ deltas CTRL_DEFAULT [CTRL_READ_ROW, CTRL_READ_COL, CTRL_DEFAULT], d ≠ 0)
    ∧ (∀ d ∈ deltas CTRL_DEFAULT [CTRL_WRITE_ROW, CTRL_WRITE_COL, CTRL_DEFAULT], d ≠ 0) :=
  ⟨ctrlVals_read rA8 cA8 row col s, ctrlVals_write rA8 cA8 row col s,
    by decide, by decide, by decide, by decide⟩

/-- Witness for the amended C5 at a concrete read cycle. -/
theorem claim_C5_witness :
    ctrlVals ((read Bit0 Bit0 0 0 sys0).1.trace)
      = ctrlVals sys0.trace ++ [CTRL_READ_ROW, CTRL_READ_COL, CTRL_DEFAULT] :=
  (claim_C5_amended Bit0 Bit0 0 0 sys0).1

/- ===== Claim C6 ===== -/

theorem read_portC (rA8 cA8 : Bit) (r c : Nat) (s : Sys) :
    ((read rA8 cA8 r c s).1).portC = CTRL_DEFAULT := rfl

theorem write_portC (rA8 cA8 : Bit) (r c : Nat) (s : Sys) :
    (write rA8 cA8 r c s).portC = CTRL_DEFAULT := rfl

theorem rasCycle_portC (s : Sys) : (rasCycle s).portC = CTRL_DEFAULT := rfl

theorem fail_portC (s : Sys) : (fail s).portC = CTRL_ERROR := rfl

theorem body_portC (rd : Read) {wr : Write} (rA8 cA8 : Bit) (a : Nat) (s : Sys)
    (hwr : wr ≠ WX) : (marchBody rd wr rA8 cA8 a s).portC = CTRL_DEFAULT := by
  simp only [marchBody]
  rw [if_pos hwr]
  exact write_portC rA8 cA8 _ _ _

theorem loop_portC (dir : Direction) (rd : Read) {wr : Write} (rA8 cA8 : Bit)
    (hwr : wr ≠ WX) : ∀ (f a : Nat) (s : Sys), 0 < f →
    (doWhileLoop dir (marchBody rd wr rA8 cA8) f a s).portC = CTRL_DEFAULT := by
  intro f
  induction f with
  | zero => intro a s h; omega
  | succ m ih =>
    intro a s _
    simp only [doWhileLoop]
    by_cases h : incWrap dir (decWrap dir a) = 0
    · rw [if_pos h]
      exact body_portC rd rA8 cA8 _ s hwr
    · rw [if_neg h]
      by_cases hm : m = 0
      · subst hm
        exact body_portC rd rA8 cA8 _ s hwr
      · exact ih _ _ (by omega)

/-- Counterexample to C6 as stated: with a chip whose every cell reads 1, the
first iteration of the pass `(R0, W0)` detects a mismatch, and the write
cycle of that very iteration begins with the control port at `CTRL_ERROR`
(ERR still low), not `CTRL_DEFAULT` — `fail()` stores `CTRL_ERROR` and
nothing restores the idle value before the next cycle's first store. -/
theorem claim_C6_counterexample :
    marchBody R0 W0 BitX BitX 0 sysStuck1
      = write BitX BitX 0 0 (fail (read BitX BitX 0 0 sysStuck1).1)
    ∧ (fail (read BitX BitX 0 0 sysStuck1).1).portC = CTRL_ERROR
    ∧ CTRL_ERROR ≠ CTRL_DEFAULT :=
  ⟨rfl, rfl, by decide⟩

/-- Claim C6 (amended): every read, write or refresh (RAS-only) cycle
function returns with the control port at `CTRL_DEFAULT` (all active-low
lines high), and a whole pass that performs writes ends at `CTRL_DEFAULT`
regardless of failures; `fail()`, however, leaves the port at `CTRL_ERROR`
(ERR low) until the next cycle's first store, so the idle-port boundary
invariant holds only where no failure has just been signaled. -/
theorem claim_C6_amended (dir : Direction) (rd : Read) (wr : Write) (rA8 cA8 : Bit)
    (row col a f : Nat) (s : Sys) (hwr : wr ≠ WX) (hf : 0 < f) :
    ((read rA8 cA8 row col s).1).portC = CTRL_DEFAULT
    ∧ (write rA8 cA8 row col s).portC = CTRL_DEFAULT
    ∧ (rasCycle s).portC = CTRL_DEFAULT
    ∧ (fail s).portC = CTRL_ERROR
    ∧ (doWhileLoop dir (marchBody rd wr rA8 cA8) f a s).portC = CTRL_DEFAULT :=
  ⟨read_portC rA8 cA8 row col s, write_portC rA8 cA8 row col s, rasCycle_portC s,
    fail_portC s, loop_portC dir rd rA8 cA8 hwr f a s hf⟩

/-- Witness for the amended C6 at a concrete pass. -/
theorem claim_C6_witness :
    (doWhileLoop UP (marchBody RX W0 BitX BitX) 1 0 sys0).portC = CTRL_DEFAULT :=
  (claim_C6_amended UP RX W0 BitX BitX 0 0 0 1 sys0 (by decide) (by omega)).2.2.2.2

/- ===== Levels of the A8 and DIN lines under the port transformations ===== -/

theorem testBit1_a8fn0 (y : Nat) : (a8fn Bit0 y).testBit 1 = false := by
  have h : (compl8 A8).testBit 1 = false := by decide
  simp [a8fn, Nat.testBit_and, h]

theorem testBit1_a8fn1 (y : Nat) : (a8fn Bit1 y).testBit 1 = true := by
  have h : (A8 : Nat).testBit 1 = true := by decide
  simp [a8fn, Nat.testBit_or, h]

theorem testBit1_dinfn (w : Write) (y : Nat) : (dinfn w y).testBit 1 = y.testBit 1 := by
  have h0 : (compl8 DIN).testBit 1 = true := by decide
  have h1 : (DIN : Nat).testBit 1 = false := by decide
  cases w <;> simp [dinfn, Nat.testBit_and, Nat.testBit_or, h0, h1]

theorem testBit5_dinfn_W0 (y : Nat) : (dinfn W0 y).testBit 5 = false := by
  have h : (compl8 DIN).testBit 5 = false := by decide
  simp [dinfn, Nat.testBit_and, h]

theorem testBit5_dinfn_W1 (y : Nat) : (dinfn W1 y).testBit 5 = true := by
  have h : (DIN : Nat).testBit 5 = true := by decide
  simp [dinfn, Nat.testBit_or, h]

theorem testBit5_a8fn (b : Bit) (y : Nat) : (a8fn b y).testBit 5 = y.testBit 5 := by
  have h0 : (compl8 A8).testBit 5 = true := by decide
  have h1 : (A8 : Nat).testBit 5 = false := by decide
  cases b <;> simp [a8fn, Nat.testBit_and, Nat.testBit_or, h0, h1]

/- ===== Record-level characterizations of the cycle functions ===== -/

theorem set_data_portB (w : Write) (s : Sys) : (set_data w s).portB = dinfn w s.portB := rfl

theorem set_data_trace (w : Write) (s : Sys) : (set_data w s).trace = s.trace := rfl

theorem set_data_honors (w : Write) (s : Sys) : (set_data w s).honorsA8 = s.honorsA8 := rfl

theorem set_data_dram (w : Write) (s : Sys) : (set_data w s).dram = s.dram := rfl

theorem write_portB (rA8 cA8 : Bit) (r c : Nat) (s : Sys) :
    (write rA8 cA8 r c s).portB = a8fn cA8 (a8fn rA8 s.portB) := rfl

theorem write_honors (rA8 cA8 : Bit) (r c : Nat) (s : Sys) :
    (write rA8 cA8 r c s).honorsA8 = s.honorsA8 := rfl

theorem trace_write (rA8 cA8 : Bit) (r c : Nat) (s : Sys) :
    (write rA8 cA8 r c s).trace = s.trace ++
      [Ev.ctrl CTRL_WRITE_ROW, Ev.rowStrobe (r % 256) ((a8fn rA8 s.portB).testBit 1),
       Ev.ctrl CTRL_WRITE_COL, Ev.colStrobe (c % 256) ((a8fn cA8 (a8fn rA8 s.portB)).testBit 1),
       Ev.ctrl CTRL_DEFAULT] := by
  simp [write, emit, storeC, storeD, set_a8, a8Level]

theorem write_dram (rA8 cA8 : Bit) (r c : Nat) (s : Sys) :
    (write rA8 cA8 r c s).dram = fun rr cc =>
      if rr = r % 256 + (if s.honorsA8 && (a8fn rA8 s.portB).testBit 1 then 256 else 0)
         ∧ cc = c % 256 + (if s.honorsA8 && (a8fn cA8 (a8fn rA8 s.portB)).testBit 1 then 256 else 0)
      then (a8fn cA8 (a8fn rA8 s.portB)).testBit 5
      else s.dram rr cc := rfl

theorem trace_read (rA8 cA8 : Bit) (r c : Nat) (s : Sys) :
    ((read rA8 cA8 r c s).1).trace = s.trace ++
      [Ev.ctrl CTRL_READ_ROW, Ev.rowStrobe (r % 256) ((a8fn rA8 s.portB).testBit 1),
       Ev.ctrl CTRL_READ_COL, Ev.colStrobe (c % 256) ((a8fn cA8 (a8fn rA8 s.portB)).testBit 1),
       Ev.sample (s.dram
         (r % 256 + (if s.honorsA8 && (a8fn rA8 s.portB).testBit 1 then 256 else 0))
         (c % 256 + (if s.honorsA8 && (a8fn cA8 (a8fn rA8 s.portB)).testBit 1 then 256 else 0))),
       Ev.ctrl CTRL_DEFAULT] := by
  simp [read, emit, storeC, storeD, set_a8, a8Level, effAddr]

theorem read_snd (rA8 cA8 : Bit) (r c : Nat) (s : Sys) :
    (read rA8 cA8 r c s).2 =
      (if s.dram
         (r % 256 + (if s.honorsA8 && (a8fn rA8 s.portB).testBit 1 then 256 else 0))
         (c % 256 + (if s.honorsA8 && (a8fn cA8 (a8fn rA8 s.portB)).testBit 1 then 256 else 0))
       then R1 else R0) := rfl

/- ===== Claim C7 ===== -/

/-- Claim C7: the probe performs exactly a write of 1 at
`(row_high 0, col_high 0, row 0, col 0)`, a write of 0 at
`(row_high 1, col_high 1, row 0, col 0)` and a read at
`(row_high 0, col_high 0, row 0, col 0)`; it answers true exactly when that
read returns 1; against the simulated DRAM the answer equals whether the chip
honors A8, and `main` selects the 256K code path exactly in that case
(otherwise the two writes aliased and the 64K path is chosen). -/
theorem claim_C7 (s : Sys) :
    (is_41256 s).1.trace = s.trace ++
      [Ev.ctrl CTRL_WRITE_ROW, Ev.rowStrobe 0 false, Ev.ctrl CTRL_WRITE_COL,
       Ev.colStrobe 0 false, Ev.ctrl CTRL_DEFAULT,
       Ev.ctrl CTRL_WRITE_ROW, Ev.rowStrobe 0 true, Ev.ctrl CTRL_WRITE_COL,
       Ev.colStrobe 0 true, Ev.ctrl CTRL_DEFAULT,
       Ev.ctrl CTRL_READ_ROW, Ev.rowStrobe 0 false, Ev.ctrl CTRL_READ_COL,
       Ev.colStrobe 0 false, Ev.sample s.honorsA8, Ev.ctrl CTRL_DEFAULT]
    ∧ ((is_41256 s).2 = true ↔
        (read Bit0 Bit0 0 0 (write Bit1 Bit1 0 0 (set_data W0
          (write Bit0 Bit0 0 0 (set_data W1 s))))).2 = R1)
    ∧ (is_41256 s).2 = s.honorsA8
    ∧ chipOf s = (if s.honorsA8 then DRAM_41256 else DRAM_4164) := by
  have h2 : ((is_41256 s).2 = true ↔
      (read Bit0 Bit0 0 0 (write Bit1 Bit1 0 0 (set_data W0
        (write Bit0 Bit0 0 0 (set_data W1 s))))).2 = R1) := by
    simp [is_41256]
  have h3 : (is_41256 s).2 = s.honorsA8 := by
    cases hH : s.honorsA8 <;>
      simp [is_41256, read_snd, write_dram, write_honors, write_portB,
        set_data_honors, set_data_dram, set_data_portB, testBit1_a8fn0,
        testBit1_a8fn1, testBit1_dinfn, testBit5_a8fn, testBit5_dinfn_W0,
        testBit5_dinfn_W1, hH]
  refine ⟨?_, h2, h3, ?_⟩
  · cases hH : s.honorsA8 <;>
      simp [is_41256, trace_read, trace_write, write_dram, write_honors,
        write_portB, set_data_trace, set_data_honors, set_data_dram,
        set_data_portB, testBit1_a8fn0, testBit1_a8fn1, testBit1_dinfn,
        testBit5_a8fn, testBit5_dinfn_W0, testBit5_dinfn_W1, hH]
  · rw [chipOf, h3]

/- ===== Claim C8 ===== -/

/-- Claim C8: a 64K march step runs the single-pass primitive once with both
A8 bits absent; a 256K march step folds it over the four `(row A8, col A8)`
quadrants, visiting `(0,0), (1,0), (0,1), (1,1)` for `UP` and the exact
reverse for `DN`, each combination exactly once. -/
theorem claim_C8 (dir : Direction) (rd : Read) (wr : Write) (s : Sys) :
    march_step DRAM_4164 dir rd wr s = march_once dir rd wr BitX BitX (set_data wr s)
    ∧ march_step DRAM_41256 dir rd wr s =
        march_once dir rd wr ((quadOrder dir).getD 3 (BitX, BitX)).1
          ((quadOrder dir).getD 3 (BitX, BitX)).2
          (march_once dir rd wr ((quadOrder dir).getD 2 (BitX, BitX)).1
            ((quadOrder dir).getD 2 (BitX, BitX)).2
            (march_once dir rd wr ((quadOrder dir).getD 1 (BitX, BitX)).1
              ((quadOrder dir).getD 1 (BitX, BitX)).2
              (march_once dir rd wr ((quadOrder dir).getD 0 (BitX, BitX)).1
                ((quadOrder dir).getD 0 (BitX, BitX)).2 (set_data wr s))))
    ∧ quadOrder UP = [(Bit0, Bit0), (Bit1, Bit0), (Bit0, Bit1), (Bit1, Bit1)]
    ∧ quadOrder DN = (quadOrder UP).reverse
    ∧ (quadOrder dir).length = 4
    ∧ (quadOrder dir).Nodup
    ∧ (∀ p : Bit × Bit, p ∈ quadOrder dir ↔ p.1 ≠ BitX ∧ p.2 ≠ BitX) := by
  refine ⟨rfl, ?_, rfl, rfl, ?_, ?_, ?_⟩
  · cases dir <;> rfl
  · cases dir <;> rfl
  · cases dir <;> decide
  · intro p
    obtain ⟨x, y⟩ := p
    cases dir <;> cases x <;> cases y <;> decide

/- ===== DIN stability (Claim C9) ===== -/

theorem A8_pow : A8 = 2 ^ 1 := by decide

theorem DIN_pow : DIN = 2 ^ 5 := by decide

theorem din_a8fn (b : Bit) (y : Nat) : a8fn b y &&& DIN = y &&& DIN := by
  cases b with
  | Bit0 =>
    show (y &&& compl8 A8) &&& DIN = y &&& DIN
    rw [A8_pow, DIN_pow]
    exact and_clear_other (by omega) (by omega) y
  | Bit1 =>
    show (y ||| A8) &&& DIN = y &&& DIN
    rw [A8_pow, DIN_pow]
    exact and_or_other (by omega) y
  | BitX => rfl

theorem read1_portB (rA8 cA8 : Bit) (r c : Nat) (s : Sys) :
    ((read rA8 cA8 r c s).1).portB = a8fn cA8 (a8fn rA8 s.portB) := rfl

theorem fail_portB (s : Sys) :
    (fail s).portB = (s.portB ||| LED_R) &&& compl8 LED_G := rfl

theorem read1_din (rA8 cA8 : Bit) (r c : Nat) (s : Sys) :
    ((read rA8 cA8 r c s).1).portB &&& DIN = s.portB &&& DIN := by
  rw [read1_portB, din_a8fn, din_a8fn]

theorem write_din (rA8 cA8 : Bit) (r c : Nat) (s : Sys) :
    (write rA8 cA8 r c s).portB &&& DIN = s.portB &&& DIN := by
  rw [write_portB, din_a8fn, din_a8fn]

theorem fail_din (s : Sys) : (fail s).portB &&& DIN = s.portB &&& DIN := by
  rw [fail_portB, LED_R_pow, LED_G_pow, DIN_pow, and_clear_other (by omega) (by omega),
    and_or_other (by omega)]

theorem body_din (rd : Read) (wr : Write) (rA8 cA8 : Bit) (a : Nat) (s : Sys) :
    (marchBody rd wr rA8 cA8 a s).portB &&& DIN = s.portB &&& DIN := by
  simp only [marchBody]
  by_cases hrd : rd = RX
  · rw [if_neg (not_not_intro hrd)]
    by_cases hwr : wr = WX
    · rw [if_neg (not_not_intro hwr)]
    · rw [if_pos hwr, write_din]
  · rw [if_pos hrd]
    by_cases hm : (read rA8 cA8 (a % 256) (a / 256 % 256) s).2 ≠ rd
    · rw [if_pos hm]
      by_cases hwr : wr = WX
      · rw [if_neg (not_not_intro hwr), fail_din, read1_din]
      · rw [if_pos hwr, write_din, fail_din, read1_din]
    · rw [if_neg hm]
      by_cases hwr : wr = WX
      · rw [if_neg (not_not_intro hwr), read1_din]
      · rw [if_pos hwr, write_din, read1_din]

theorem loop_din (dir : Direction) (rd : Read) (wr : Write) (rA8 cA8 : Bit) :
    ∀ (f a : Nat) (s : Sys),
    (doWhileLoop dir (marchBody rd wr rA8 cA8) f a s).portB &&& DIN = s.portB &&& DIN := by
  intro f
  induction f with
  | zero => intro a s; rfl
  | succ m ih =>
    intro a s
    simp only [doWhileLoop]
    by_cases h : incWrap dir (decWrap dir a) = 0
    · rw [if_pos h, body_din]
    · rw [if_neg h, ih, body_din]

theorem march_once_din (dir : Direction) (rd : Read) (wr : Write) (rA8 cA8 : Bit) (s : Sys) :
    (march_once dir rd wr rA8 cA8 s).portB &&& DIN = s.portB &&& DIN := by
  simp only [march_once, marchOnceF]
  by_cases h : rA8 = cA8 ∧ rA8 ≠ BitX
  · rw [if_pos h, loop_din]
    exact din_a8fn rA8 s.portB
  · rw [if_neg h, loop_din]

theorem march_step_din (chip : Chip) (dir : Direction) (rd : Read) (wr : Write) (s : Sys) :
    (march_step chip dir rd wr s).portB &&& DIN = (set_data wr s).portB &&& DIN := by
  cases chip with
  | DRAM_4164 => exact march_once_din dir rd wr BitX BitX (set_data wr s)
  | DRAM_41256 =>
    cases dir <;>
      simp only [march_step] <;>
      rw [march_once_din, march_once_din, march_once_din, march_once_din]

theorem set_data_din (w : Write) (s : Sys) :
    (set_data w s).portB &&& DIN = (if w = W0 then 0 else DIN) := by
  cases w with
  | W0 =>
    show (s.portB &&& compl8 DIN) &&& DIN = _
    rw [DIN_pow, and_clear_self (by omega)]
    rfl
  | W1 =>
    show (s.portB ||| DIN) &&& DIN = _
    rw [DIN_pow, and_or_self]
    rfl
  | WX =>
    show (s.portB ||| DIN) &&& DIN = _
    rw [DIN_pow, and_or_self]
    rfl

/- ===== Claim C9 ===== -/

/-- Claim C9: `march_step` drives DIN exactly once, before the per-address
loop — low for `WriteZero`, high for `WriteOne` or `NoWrite` — and no
operation of the loop body (read cycle, write cycle, failure report, counter
advance) changes the DIN bit, so the DIN level set by `set_data` persists
through the body, the whole loop, each `march_once` sweep, and to the end of
the march step. -/
theorem claim_C9 (chip : Chip) (dir : Direction) (rd : Read) (wr : Write)
    (rA8 cA8 : Bit) (a f : Nat) (s : Sys) :
    (set_data wr s).portB &&& DIN = (if wr = W0 then 0 else DIN)
    ∧ (marchBody rd wr rA8 cA8 a s).portB &&& DIN = s.portB &&& DIN
    ∧ (doWhileLoop dir (marchBody rd wr rA8 cA8) f a s).portB &&& DIN = s.portB &&& DIN
    ∧ (march_once dir rd wr rA8 cA8 s).portB &&& DIN = s.portB &&& DIN
    ∧ (march_step chip dir rd wr s).portB &&& DIN = (if wr = W0 then 0 else DIN) := by
  refine ⟨set_data_din wr s, body_din rd wr rA8 cA8 a s, loop_din dir rd wr rA8 cA8 f a s,
    march_once_din dir rd wr rA8 cA8 s, ?_⟩
  rw [march_step_din, set_data_din]

/- ===== A8 fixpoint machinery (Claim C10) ===== -/

theorem a8fn_idem (b : Bit) (y : Nat) : a8fn b (a8fn b y) = a8fn b y := by
  cases b with
  | Bit0 => exact and_and_self y (compl8 A8)
  | Bit1 => exact or_or_self y A8
  | BitX => rfl

theorem read_fix (b : Bit) (r c : Nat) (s : Sys) (h : a8fn b s.portB = s.portB) :
    read BitX BitX r c s = read b b r c s := by
  cases b with
  | BitX => rfl
  | Bit0 =>
    simp only [a8fn] at h
    simp [read, set_a8, storeD, storeC, emit, a8Level, effAddr, a8fn, h]
  | Bit1 =>
    simp only [a8fn] at h
    simp [read, set_a8, storeD, storeC, emit, a8Level, effAddr, a8fn, h]

theorem write_fix (b : Bit) (r c : Nat) (s : Sys) (h : a8fn b s.portB = s.portB) :
    write BitX BitX r c s = write b b r c s := by
  cases b with
  | BitX => rfl
  | Bit0 =>
    simp only [a8fn] at h
    simp [write, set_a8, storeD, storeC, emit, a8Level, dinLevel, effAddr, a8fn, h]
  | Bit1 =>
    simp only [a8fn] at h
    simp [write, set_a8, storeD, storeC, emit, a8Level, dinLevel, effAddr, a8fn, h]

theorem a8fn_fail_fix (b : Bit) {y : Nat} (h : a8fn b y = y) :
    a8fn b ((y ||| LED_R) &&& compl8 LED_G) = (y ||| LED_R) &&& compl8 LED_G := by
  cases b with
  | BitX => rfl
  | Bit1 =>
    have ht : y.testBit 1 = true := by
      have hc := congrArg (fun z => z.testBit 1) h
      have hA : (A8 : Nat).testBit 1 = true := by decide
      simpa [a8fn, Nat.testBit_or, hA] using hc
    have h1 : (LED_R : Nat).testBit 1 = false := by decide
    have h2 : (compl8 LED_G).testBit 1 = true := by decide
    show ((y ||| LED_R) &&& compl8 LED_G) ||| A8 = _
    rw [A8_pow]
    apply or_eq_self
    simp [Nat.testBit_and, Nat.testBit_or, ht, h1, h2]
  | Bit0 =>
    have ht : y.testBit 1 = false := by
      have hc := congrArg (fun z => z.testBit 1) h
      have hA : (compl8 A8).testBit 1 = false := by decide
      simpa [a8fn, Nat.testBit_and, hA] using hc
    have hy : y < 256 := by
      have hle : y &&& compl8 A8 ≤ compl8 A8 := Nat.and_le_right
      have h' : y &&& compl8 A8 = y := h
      rw [h'] at hle
      have h253 : compl8 A8 = 253 := by decide
      omega
    have h1 : (LED_R : Nat).testBit 1 = false := by decide
    have h2 : (compl8 LED_G).testBit 1 = true := by decide
    show ((y ||| LED_R) &&& compl8 LED_G) &&& compl8 A8 = _
    rw [A8_pow]
    apply and_compl8_eq_self ?lt (by omega)
    case lt =>
      have hle : (y ||| LED_R) &&& compl8 LED_G ≤ compl8 LED_G := Nat.and_le_right
      have h239 : compl8 LED_G = 239 := by decide
      omega
    simp [Nat.testBit_and, Nat.testBit_or, ht, h1, h2]

theorem body_fix (rd : Read) (wr : Write) (b : Bit) (a : Nat) (s : Sys)
    (h : a8fn b s.portB = s.portB) :
    marchBody rd wr BitX BitX a s = marchBody rd wr b b a s := by
  simp only [marchBody]
  by_cases hrd : rd = RX
  · rw [if_neg (not_not_intro hrd), if_neg (not_not_intro hrd)]
    by_cases hwr : wr = WX
    · rw [if_neg (not_not_intro hwr), if_neg (not_not_intro hwr)]
    · rw [if_pos hwr, if_pos hwr, write_fix b _ _ s h]
  · rw [if_pos hrd, if_pos hrd, read_fix b (a % 256) (a / 256 % 256) s h]
    by_cases hm : (read b b (a % 256) (a / 256 % 256) s).2 ≠ rd
    · rw [if_pos hm]
      by_cases hwr : wr = WX
      · rw [if_neg (not_not_intro hwr), if_neg (not_not_intro hwr)]
      · rw [if_pos hwr, if_pos hwr]
        apply write_fix
        rw [fail_portB]
        apply a8fn_fail_fix
        rw [read1_portB]
        exact a8fn_idem b _
    · rw [if_neg hm]
      by_cases hwr : wr = WX
      · rw [if_neg (not_not_intro hwr), if_neg (not_not_intro hwr)]
      · rw [if_pos hwr, if_pos hwr]
        apply write_fix
        rw [read1_portB]
        exact a8fn_idem b _

theorem body_b_fix (rd : Read) (wr : Write) (b : Bit) (a : Nat) (s : Sys)
    (h : a8fn b s.portB = s.portB) :
    a8fn b (marchBody rd wr b b a s).portB = (marchBody rd wr b b a s).portB := by
  simp only [marchBody]
  by_cases hrd : rd = RX
  · rw [if_neg (not_not_intro hrd)]
    by_cases hwr : wr = WX
    · rw [if_neg (not_not_intro hwr)]
      exact h
    · rw [if_pos hwr, write_portB]
      exact a8fn_idem b _
  · rw [if_pos hrd]
    by_cases hm : (read b b (a % 256) (a / 256 % 256) s).2 ≠ rd
    · rw [if_pos hm]
      by_cases hwr : wr = WX
      · rw [if_neg (not_not_intro hwr), fail_portB]
        apply a8fn_fail_fix
        rw [read1_portB]
        exact a8fn_idem b _
      · rw [if_pos hwr, write_portB]
        exact a8fn_idem b _
    · rw [if_neg hm]
      by_cases hwr : wr = WX
      · rw [if_neg (not_not_intro hwr), read1_portB]
        exact a8fn_idem b _
      · rw [if_pos hwr, write_portB]
        exact a8fn_idem b _

theorem loop_fix (dir : Direction) (rd : Read) (wr : Write) (b : Bit) :
    ∀ (f a : Nat) (s : Sys), a8fn b s.portB = s.portB →
    doWhileLoop dir (marchBody rd wr BitX BitX) f a s
      = doWhileLoop dir (marchBody rd wr b b) f a s := by
  intro f
  induction f with
  | zero => intro a s _; rfl
  | succ m ih =>
    intro a s h
    simp only [doWhileLoop]
    by_cases h0 : incWrap dir (decWrap dir a) = 0
    · rw [if_pos h0, if_pos h0, body_fix rd wr b _ s h]
    · rw [if_neg h0, if_neg h0, body_fix rd wr b _ s h,
        ih _ _ (body_b_fix rd wr b _ s h)]

theorem read_absorb (b : Bit) (r c : Nat) (s : Sys) :
    read b b r c (set_a8 b s) = read b b r c s := by
  cases b with
  | BitX => rfl
  | Bit0 =>
    simp [read, set_a8, storeD, storeC, emit, a8Level, effAddr, a8fn, and_and_self]
  | Bit1 =>
    simp [read, set_a8, storeD, storeC, emit, a8Level, effAddr, a8fn, or_or_self]

theorem write_absorb (b : Bit) (r c : Nat) (s : Sys) :
    write b b r c (set_a8 b s) = write b b r c s := by
  cases b with
  | BitX => rfl
  | Bit0 =>
    simp [write, set_a8, storeD, storeC, emit, a8Level, dinLevel, effAddr, a8fn,
      and_and_self]
  | Bit1 =>
    simp [write, set_a8, storeD, storeC, emit, a8Level, dinLevel, effAddr, a8fn,
      or_or_self]

theorem body_absorb (rd : Read) (wr : Write) (b : Bit) (a : Nat) (s : Sys)
    (hne : rd ≠ RX ∨ wr ≠ WX) :
    marchBody rd wr b b a (set_a8 b s) = marchBody rd wr b b a s := by
  simp only [marchBody]
  by_cases hrd : rd = RX
  · have hwr : wr ≠ WX := hne.resolve_left (not_not_intro hrd)
    rw [if_neg (not_not_intro hrd), if_neg (not_not_intro hrd), if_pos hwr, if_pos hwr,
      write_absorb]
  · rw [if_pos hrd, if_pos hrd, read_absorb]

theorem body_id (rA8 cA8 : Bit) (a : Nat) (s : Sys) :
    marchBody RX WX rA8 cA8 a s = s := by
  simp [marchBody]

theorem loop_id (dir : Direction) (rA8 cA8 : Bit) :
    ∀ (f a : Nat) (s : Sys), doWhileLoop dir (marchBody RX WX rA8 cA8) f a s = s := by
  intro f
  induction f with
  | zero => intro a s; rfl
  | succ m ih =>
    intro a s
    simp only [doWhileLoop, body_id]
    by_cases h0 : incWrap dir (decWrap dir a) = 0
    · rw [if_pos h0]
    · rw [if_neg h0, ih]

theorem loop_absorb (dir : Direction) (rd : Read) (wr : Write) (b : Bit) :
    ∀ (f a : Nat) (s : Sys),
    ((doWhileLoop dir (marchBody rd wr b b) f a (set_a8 b s)).trace
       = (doWhileLoop dir (marchBody rd wr b b) f a s).trace)
    ∧ ((doWhileLoop dir (marchBody rd wr b b) f a (set_a8 b s)).dram
       = (doWhileLoop dir (marchBody rd wr b b) f a s).dram)
    ∧ ((doWhileLoop dir (marchBody rd wr b b) f a (set_a8 b s)).portC
       = (doWhileLoop dir (marchBody rd wr b b) f a s).portC)
    ∧ ((doWhileLoop dir (marchBody rd wr b b) f a (set_a8 b s)).portD
       = (doWhileLoop dir (marchBody rd wr b b) f a s).portD) := by
  intro f a s
  by_cases hid : rd = RX ∧ wr = WX
  · obtain ⟨h1, h2⟩ := hid
    subst h1
    subst h2
    rw [loop_id, loop_id]
    exact ⟨rfl, rfl, rfl, rfl⟩
  · have hne : rd ≠ RX ∨ wr ≠ WX := by tauto
    cases f with
    | zero => exact ⟨rfl, rfl, rfl, rfl⟩
    | succ m =>
      simp only [doWhileLoop]
      rw [body_absorb rd wr b _ s hne]
      exact ⟨rfl, rfl, rfl, rfl⟩

/- ===== Claim C10 ===== -/

/-- Claim C10: for every direction, read spec, write spec and definite bit
`b`, the specialized `march_once` path taken when both A8 parameters equal
`b` (set A8 once, then loop without touching it) produces exactly the same
DRAM bus interaction as the general loop that sets A8 at each row and column
phase: the event traces (control stores, row/column strobes with their A8
levels, read samples), the resulting DRAM contents, and the final control and
address ports all coincide. -/
theorem claim_C10 (dir : Direction) (rd : Read) (wr : Write) (b : Bit) (s : Sys)
    (hb : b ≠ BitX) :
    (march_once dir rd wr b b s).trace
      = (doWhileLoop dir (marchBody rd wr b b) 65536 0 s).trace
    ∧ (march_once dir rd wr b b s).dram
      = (doWhileLoop dir (marchBody rd wr b b) 65536 0 s).dram
    ∧ (march_once dir rd wr b b s).portC
      = (doWhileLoop dir (marchBody rd wr b b) 65536 0 s).portC
    ∧ (march_once dir rd wr b b s).portD
      = (doWhileLoop dir (marchBody rd wr b b) 65536 0 s).portD := by
  have h1 : march_once dir rd wr b b s
      = doWhileLoop dir (marchBody rd wr BitX BitX) 65536 0 (set_a8 b s) := by
    rw [march_once, marchOnceF, if_pos (⟨rfl, hb⟩ : b = b ∧ b ≠ BitX)]
  have h2 : doWhileLoop dir (marchBody rd wr BitX BitX) 65536 0 (set_a8 b s)
      = doWhileLoop dir (marchBody rd wr b b) 65536 0 (set_a8 b s) :=
    loop_fix dir rd wr b 65536 0 (set_a8 b s) (a8fn_idem b s.portB)
  rw [h1, h2]
  exact loop_absorb dir rd wr b 65536 0 s

/-- Witness for C10 at a concrete parameterization. -/
theorem claim_C10_witness :
    (march_once UP R0 W1 Bit0 Bit0 sys0).trace
      = (doWhileLoop UP (marchBody R0 W1 Bit0 Bit0) 65536 0 sys0).trace :=
  (claim_C10 UP R0 W1 Bit0 sys0 (by decide)).1

end AvrDram
